import Mathlib

/-! Verification of the pipe module of mariadb-proxy-rs: the protocol framing
function `get_packet`, the packet-processing loop of `process_read_buf`, the
sibling short-circuit path, the flush loop of `Pipe::run`, and the error
plumbing. Buffers are byte lists; `u8` values are embedded as `Nat`. -/

namespace MariadbProxy

/-- Modelled from the spec: `DatabaseType` (defined in `packet.rs`, which is
not among the given sources) is the closed tag selecting the framing
algorithm; the spec fixes its two variants. -/
inductive DatabaseType : Type
  | MariaDB : DatabaseType
  | PostgresSQL : DatabaseType
deriving DecidableEq, Repr

/-- Modelled from the spec: `Packet` (from the missing `packet.rs`) is an
immutable value with fields `db_type` and `bytes`, the complete wire frame. -/
structure Packet where
  db_type : DatabaseType
  bytes : List Nat
deriving DecidableEq, Repr

/-- Modelled from the spec: `Packet::get_size` is the byte count of the frame. -/
def Packet.get_size (p : Packet) : Nat := p.bytes.length

/-- Modelled from the spec: `POSTGRES_IDS` (from the missing `packet.rs`) is
the fixed recognized set of 1-byte ASCII PostgreSQL discriminators; the spec
names only the discriminator of simple queries, the letter Q, as recognized. -/
def POSTGRES_IDS : List Char := ['Q']

/-- Embedding of `get_packet` (src/pipe.rs lines 180-248). The Rust function
mutates `packet_buf` by draining the frame from its front; here the remaining
buffer is returned next to the extracted `Packet`, and `none` means "no
complete frame yet, buffer untouched". `BigEndian::read_u32` (from the
external byteorder crate) is embedded by its documented semantics, the
big-endian 32-bit value written with the same shift/or style the MariaDB
branch uses inline. -/
def get_packet (db_type : DatabaseType) (packet_buf : List Nat) :
    Option (Packet × List Nat) :=
  match db_type with
  | DatabaseType.MariaDB =>
    if packet_buf.length < 4 then none
    else
      let l : Nat :=
        ((packet_buf.getD 2 0) <<< 16) ||| ((packet_buf.getD 1 0) <<< 8) |||
          (packet_buf.getD 0 0)
      let s : Nat := 4 + l
      if packet_buf.length < s then none
      else some (⟨DatabaseType.MariaDB, packet_buf.take s⟩, packet_buf.drop s)
  | DatabaseType.PostgresSQL =>
    if packet_buf.isEmpty then none
    else
      let id : Char := Char.ofNat (packet_buf.getD 0 0)
      let size0 : Nat := if POSTGRES_IDS.contains id then 1 else 0
      if packet_buf.length < size0 + 4 then none
      else
        let length : Nat :=
          ((packet_buf.getD size0 0) <<< 24) |||
            ((packet_buf.getD (size0 + 1) 0) <<< 16) |||
            ((packet_buf.getD (size0 + 2) 0) <<< 8) |||
            (packet_buf.getD (size0 + 3) 0)
        let size : Nat := size0 + length
        if packet_buf.length < size then none
        else
          some (⟨DatabaseType.PostgresSQL, packet_buf.take size⟩,
            packet_buf.drop size)

/-- Restatement of the spec's words for the MariaDB length field: the 24-bit
little-endian value of bytes 0..3, byte 0 least significant. Stated
arithmetically, to be compared with the shift/or computation of `get_packet`. -/
def mariadbLenSpec (buf : List Nat) : Nat :=
  buf.getD 0 0 + 256 * buf.getD 1 0 + 65536 * buf.getD 2 0

/-- Restatement of the spec's words for the PostgreSQL length field: the
32-bit big-endian value read at offset `p`. -/
def postgresLenSpec (buf : List Nat) (p : Nat) : Nat :=
  16777216 * buf.getD p 0 + 65536 * buf.getD (p + 1) 0 +
    256 * buf.getD (p + 2) 0 + buf.getD (p + 3) 0

/-- Restatement of the spec's words for the PostgreSQL discriminator count:
one leading byte iff the first byte is in the recognized set. -/
def postgresHeadLen (buf : List Nat) : Nat :=
  if POSTGRES_IDS.contains (Char.ofNat (buf.getD 0 0)) then 1 else 0

/-- Proof-layer reformulation of the header checks of `get_packet`: the total
frame size demanded by the header at the front of the buffer, or `none` when
too few bytes are present to read the header. `get_packet_eq_declared` proves
it equivalent to the inline checks of the source function. -/
def declaredFrameSize (db : DatabaseType) (buf : List Nat) : Option Nat :=
  match db with
  | DatabaseType.MariaDB =>
    if buf.length < 4 then none
    else
      some (4 +
        (((buf.getD 2 0) <<< 16) ||| ((buf.getD 1 0) <<< 8) ||| (buf.getD 0 0)))
  | DatabaseType.PostgresSQL =>
    if buf.isEmpty then none
    else
      let size0 : Nat :=
        if POSTGRES_IDS.contains (Char.ofNat (buf.getD 0 0)) then 1 else 0
      if buf.length < size0 + 4 then none
      else
        some (size0 +
          (((buf.getD size0 0) <<< 24) ||| ((buf.getD (size0 + 1) 0) <<< 16) |||
            ((buf.getD (size0 + 2) 0) <<< 8) ||| (buf.getD (size0 + 3) 0)))

/-- The `while let Some(packet) = get_packet(..)` extraction loop of
`process_read_buf` (src/pipe.rs line 110), restricted to framing: extract
frames until `get_packet` signals "none yet". A zero-sized frame leaves the
buffer unchanged and makes the source loop spin forever; that divergence is
modelled by `none`. -/
def drainFrames (db : DatabaseType) (buf : List Nat) :
    Option (List Packet × List Nat) :=
  match h : get_packet db buf with
  | none => some ([], buf)
  | some (p, rest) =>
    if hp : p.bytes = [] then none
    else
      match drainFrames db rest with
      | none => none
      | some (ps, fin) => some (p :: ps, fin)
termination_by buf.length
decreasing_by
  cases db
  all_goals simp only [get_packet] at h
  all_goals repeat' split at h
  all_goals try exact Option.noConfusion h
  all_goals
    rw [Option.some.injEq, Prod.mk.injEq] at h
    obtain ⟨hpk, hrest⟩ := h
    have h1 : 0 < p.bytes.length := List.length_pos.mpr hp
    rw [← hpk] at h1
    simp only [List.length_take] at h1
    subst hrest
    simp only [List.length_drop]
    omega

/-- Chunked delivery harness: append each chunk in turn to the accumulation
buffer and run the extraction loop to quiescence after each append, as
`process_read_buf` does on every source read. -/
def feedChunks (db : DatabaseType) : List Nat → List (List Nat) →
    Option (List Packet × List Nat)
  | buf, [] => some ([], buf)
  | buf, c :: cs =>
    match drainFrames db (buf ++ c) with
    | none => none
    | some (ps, rest) =>
      match feedChunks db rest cs with
      | none => none
      | some (qs, fin) => some (ps ++ qs, fin)

/-- Modelled from the spec: `Direction` (from the missing `packet_handler.rs`)
is the closed per-Pipe tag selecting which handler operation applies. -/
inductive Direction : Type
  | Forward : Direction
  | Backward : Direction
deriving DecidableEq, Repr

/-- Modelled from the spec: the two transform operations of the external
`PacketHandler` capability, embedded as pure functions. -/
structure PacketHandler where
  handle_request : Packet → Packet
  handle_response : Packet → Packet

/-- Rendering of `Direction` under the Rust Debug format used by the pipe's
diagnostics. -/
def Direction.debugStr : Direction → String
  | Direction.Forward => "Forward"
  | Direction.Backward => "Backward"

/-- Embedding of `Pipe::create_error` (src/pipe.rs lines 172-177): an error
value whose message is the given text under the pipe's identity/direction
banner. Errors are embedded as their human-readable message strings. -/
def create_error (name : String) (direction : Direction) (msg : String) :
    String :=
  "[" ++ name ++ ":" ++ direction.debugStr ++ "]: " ++ msg

/-- The per-session state of one `Pipe` that the processing functions read:
identity, protocol tag, direction, the shared handler, and the
SSL-negotiation-probe test. The last one embeds, modelled from the spec, the
classification-layer predicate that the source phrases as
`packet.get_packet_type() == Ok(PacketType::SSLRequest)` (from the missing
`packet.rs`). -/
structure PipeConfig where
  name : String
  db_type : DatabaseType
  direction : Direction
  handler : PacketHandler
  isSSLRequest : Packet → Bool

/-- The handler dispatch of src/pipe.rs lines 129-132: `handle_request` on a
Forward pipe, `handle_response` on a Backward pipe. -/
def transformPacket (cfg : PipeConfig) (p : Packet) : Packet :=
  match cfg.direction with
  | Direction.Forward => cfg.handler.handle_request p
  | Direction.Backward => cfg.handler.handle_response p

/-- Outcome of one `process_read_buf` call: the final accumulation and output
buffers, the packets sent on the sibling channel (in order), and the packets
for which a handler operation was invoked (in order). -/
structure ReadOutcome where
  packet_buf : List Nat
  write_buf : List Nat
  sent : List Packet
  handled : List Packet
deriving DecidableEq, Repr

/-- Embedding of the packet-processing loop of `process_read_buf`
(src/pipe.rs lines 110-136): extract frames until `get_packet` returns
`None`; an SSL-negotiation probe is answered by sending `Packet::new(db_type,
"N")` (the single byte 78) on the sibling channel, every other frame goes
through the handler and its transformed bytes are appended to the output
buffer. Channel sends are modelled as always delivered. The divergence on a
zero-sized frame is modelled by `none`, as in `drainFrames`. -/
def process_packets (cfg : PipeConfig) (packet_buf write_buf : List Nat) :
    Option ReadOutcome :=
  match h : get_packet cfg.db_type packet_buf with
  | none => some ⟨packet_buf, write_buf, [], []⟩
  | some (p, rest) =>
    if hp : p.bytes = [] then none
    else if cfg.isSSLRequest p then
      match process_packets cfg rest write_buf with
      | none => none
      | some o =>
        some ⟨o.packet_buf, o.write_buf,
          Packet.mk cfg.db_type [78] :: o.sent, o.handled⟩
    else
      match process_packets cfg rest
          (write_buf ++ (transformPacket cfg p).bytes) with
      | none => none
      | some o => some ⟨o.packet_buf, o.write_buf, o.sent, p :: o.handled⟩
termination_by packet_buf.length
decreasing_by
  all_goals cases hdb : cfg.db_type
  all_goals rw [hdb] at h
  all_goals simp only [get_packet] at h
  all_goals repeat' split at h
  all_goals try exact Option.noConfusion h
  all_goals
    rw [Option.some.injEq, Prod.mk.injEq] at h
    obtain ⟨hpk, hrest⟩ := h
    have h1 : 0 < p.bytes.length := List.length_pos.mpr hp
    rw [← hpk] at h1
    simp only [List.length_take] at h1
    subst hrest
    simp only [List.length_drop]
    omega

/-- Embedding of `process_read_buf` (src/pipe.rs lines 88-147): a zero-byte
read fails with a pipe-tagged error, an I/O error is returned as it came in,
and otherwise the fresh bytes are appended to the accumulation buffer and the
packet loop runs. `read_result` carries the error as its message string. -/
def process_read_buf (cfg : PipeConfig) (read_result : Except String Nat)
    (read_buf : List Nat) (packet_buf write_buf : List Nat) :
    Option (Except String ReadOutcome) :=
  match read_result with
  | Except.ok n =>
    if n = 0 then
      some (Except.error
        (create_error cfg.name cfg.direction "Read 0 bytes, closing pipe."))
    else
      match process_packets cfg (packet_buf ++ read_buf.take n) write_buf with
      | none => none
      | some o => some (Except.ok o)
  | Except.error e => some (Except.error e)

/-- Embedding of `process_short_circuit` (src/pipe.rs lines 149-162): a
delivered packet's bytes are appended to the output buffer; a closed channel
(`None`) fails with a pipe-tagged error. -/
def process_short_circuit (cfg : PipeConfig) (packet : Option Packet)
    (write_buf : List Nat) : Except String (List Nat) :=
  match packet with
  | some p => Except.ok (write_buf ++ p.bytes)
  | none =>
    Except.error
      (create_error cfg.name cfg.direction "other_pipe_receiver prematurely closed")

/-- Embedding of the flush loop of `Pipe::run` (src/pipe.rs lines 80-84):
while the output buffer is non-empty, one `sink.write` call accepts some count
of bytes and exactly that many are drained from the front. `accepts` is the
sequence of byte counts the sink reports; `none` models a run that is still
blocked in the loop when those reports are exhausted (or a report larger than
the buffer, which the stream contract rules out). Returns the written pieces
in order and the buffer as it is when the loop exits. -/
def flush_write_buf (accepts : List Nat) (write_buf : List Nat) :
    Option (List (List Nat) × List Nat) :=
  if write_buf.isEmpty then some ([], write_buf)
  else
    match accepts with
    | [] => none
    | n :: ns =>
      if n ≤ write_buf.length then
        match flush_write_buf ns (write_buf.drop n) with
        | none => none
        | some (pieces, rest) => some (write_buf.take n :: pieces, rest)
      else none

/-- One event resolved by the `select!` race of `Pipe::run` (src/pipe.rs
lines 66-77): either a source read completing (with its result, the bytes in
the read buffer, and the sink's acceptance counts for the following flush) or
a sibling-channel delivery. The nondeterministic race is modelled by
quantifying over event lists. -/
inductive RunEvent : Type
  | source : Except String Nat → List Nat → List Nat → RunEvent
  | sibling : Option Packet → List Nat → RunEvent

/-- Observable history of a `run()` loop: packets sent on the sibling channel,
packets handed to the handler, and the pieces written to the sink, in order. -/
structure RunTrace where
  sent : List Packet
  handled : List Packet
  written : List (List Nat)
deriving DecidableEq, Repr

/-- Embedding of the event loop of `Pipe::run` (src/pipe.rs lines 65-85) over
a finite list of resolved events: each iteration handles one event (source
data or sibling delivery) and then flushes the output buffer to the sink
before the next event. An error ends the loop at once; the remaining events
are never consumed. `none` models an iteration that never finishes (a spinning
packet loop or an unfinished flush). -/
def run_model (cfg : PipeConfig) : List RunEvent → List Nat → List Nat →
    Option (Except String RunTrace)
  | [], _, _ => some (Except.ok ⟨[], [], []⟩)
  | RunEvent.source rr rb accepts :: evs, packet_buf, write_buf =>
    match process_read_buf cfg rr rb packet_buf write_buf with
    | none => none
    | some (Except.error e) => some (Except.error e)
    | some (Except.ok o) =>
      match flush_write_buf accepts o.write_buf with
      | none => none
      | some (pieces, rest) =>
        match run_model cfg evs o.packet_buf rest with
        | none => none
        | some (Except.error e) => some (Except.error e)
        | some (Except.ok t) =>
          some (Except.ok
            ⟨o.sent ++ t.sent, o.handled ++ t.handled, pieces ++ t.written⟩)
  | RunEvent.sibling pk accepts :: evs, packet_buf, write_buf =>
    match process_short_circuit cfg pk write_buf with
    | Except.error e => some (Except.error e)
    | Except.ok wb2 =>
      match flush_write_buf accepts wb2 with
      | none => none
      | some (pieces, rest) =>
        match run_model cfg evs packet_buf rest with
        | none => none
        | some (Except.error e) => some (Except.error e)
        | some (Except.ok t) =>
          some (Except.ok ⟨t.sent, t.handled, pieces ++ t.written⟩)

/-! Framing lemmas. -/

theorem get_packet_eq_declared (db : DatabaseType) (buf : List Nat) :
    get_packet db buf =
      match declaredFrameSize db buf with
      | none => none
      | some s =>
        if buf.length < s then none
        else some (⟨db, buf.take s⟩, buf.drop s) := by
  cases db <;> simp only [get_packet, declaredFrameSize] <;> split_ifs <;>
    first
      | rfl
      | simp_all

theorem get_packet_nil (db : DatabaseType) : get_packet db [] = none := by
  cases db <;> rfl

theorem declaredFrameSize_append {db : DatabaseType} {buf : List Nat}
    {s : Nat} (ext : List Nat) (h : declaredFrameSize db buf = some s) :
    declaredFrameSize db (buf ++ ext) = some s := by
  cases db
  · simp only [declaredFrameSize] at h ⊢
    by_cases h4 : buf.length < 4
    · rw [if_pos h4] at h
      exact Option.noConfusion h
    · have h4a : ¬(buf ++ ext).length < 4 := by
        simp only [List.length_append]
        omega
      rw [if_neg h4] at h
      rw [if_neg h4a,
        List.getD_append _ _ _ _ (by omega : (2 : Nat) < buf.length),
        List.getD_append _ _ _ _ (by omega : (1 : Nat) < buf.length),
        List.getD_append _ _ _ _ (by omega : (0 : Nat) < buf.length)]
      exact h
  · simp only [declaredFrameSize] at h ⊢
    by_cases he : buf.isEmpty = true
    · rw [if_pos he] at h
      exact Option.noConfusion h
    · have hne : buf ≠ [] := by simpa using he
      have hb0 : 0 < buf.length := List.length_pos.mpr hne
      have hea : ¬(buf ++ ext).isEmpty = true := by
        simp only [List.isEmpty_eq_true, List.append_eq_nil]
        intro hc
        exact hne hc.1
      have e0 : (buf ++ ext).getD 0 0 = buf.getD 0 0 :=
        List.getD_append _ _ _ _ hb0
      rw [if_neg he] at h
      rw [if_neg hea, e0]
      by_cases hc : POSTGRES_IDS.contains (Char.ofNat (buf.getD 0 0)) = true
      · rw [if_pos hc] at h ⊢
        by_cases h4 : buf.length < 1 + 4
        · rw [if_pos h4] at h
          exact Option.noConfusion h
        · have h4a : ¬(buf ++ ext).length < 1 + 4 := by
            simp only [List.length_append]
            omega
          rw [if_neg h4] at h
          rw [if_neg h4a,
            List.getD_append _ _ _ _ (by omega : (1 : Nat) < buf.length),
            List.getD_append _ _ _ _ (by omega : 1 + 1 < buf.length),
            List.getD_append _ _ _ _ (by omega : 1 + 2 < buf.length),
            List.getD_append _ _ _ _ (by omega : 1 + 3 < buf.length)]
          exact h
      · rw [if_neg hc] at h ⊢
        by_cases h4 : buf.length < 0 + 4
        · rw [if_pos h4] at h
          exact Option.noConfusion h
        · have h4a : ¬(buf ++ ext).length < 0 + 4 := by
            simp only [List.length_append]
            omega
          rw [if_neg h4] at h
          rw [if_neg h4a,
            List.getD_append _ _ _ _ (by omega : (0 : Nat) < buf.length),
            List.getD_append _ _ _ _ (by omega : 0 + 1 < buf.length),
            List.getD_append _ _ _ _ (by omega : 0 + 2 < buf.length),
            List.getD_append _ _ _ _ (by omega : 0 + 3 < buf.length)]
          exact h

theorem get_packet_some_parts {db : DatabaseType} {buf : List Nat}
    {p : Packet} {rest : List Nat} (h : get_packet db buf = some (p, rest)) :
    ∃ s, declaredFrameSize db buf = some s ∧ s ≤ buf.length ∧
      p = ⟨db, buf.take s⟩ ∧ rest = buf.drop s := by
  rw [get_packet_eq_declared] at h
  cases hd : declaredFrameSize db buf with
  | none =>
    rw [hd] at h
    exact Option.noConfusion h
  | some s =>
    rw [hd] at h
    dsimp only at h
    by_cases hlt : buf.length < s
    · rw [if_pos hlt] at h
      exact Option.noConfusion h
    · rw [if_neg hlt, Option.some.injEq, Prod.mk.injEq] at h
      exact ⟨s, rfl, by omega, h.1.symm, h.2.symm⟩

theorem get_packet_some_of_declared {db : DatabaseType} {buf : List Nat}
    {s : Nat} (hd : declaredFrameSize db buf = some s) (hle : s ≤ buf.length) :
    get_packet db buf = some (⟨db, buf.take s⟩, buf.drop s) := by
  rw [get_packet_eq_declared, hd]
  dsimp only
  rw [if_neg (by omega)]

theorem get_packet_bytes_append {db : DatabaseType} {buf : List Nat}
    {p : Packet} {rest : List Nat} (h : get_packet db buf = some (p, rest)) :
    p.bytes ++ rest = buf := by
  obtain ⟨s, _, _, hp, hr⟩ := get_packet_some_parts h
  rw [hp, hr]
  exact List.take_append_drop s buf

theorem get_packet_rest_lt {db : DatabaseType} {buf : List Nat} {p : Packet}
    {rest : List Nat} (h : get_packet db buf = some (p, rest))
    (hp : p.bytes ≠ []) : rest.length < buf.length := by
  have hb := get_packet_bytes_append h
  have hsum : p.bytes.length + rest.length = buf.length := by
    rw [← hb, List.length_append]
  have h1 : 0 < p.bytes.length := List.length_pos.mpr hp
  omega

theorem get_packet_append {db : DatabaseType} {buf : List Nat} {p : Packet}
    {rest : List Nat} (ext : List Nat)
    (h : get_packet db buf = some (p, rest)) :
    get_packet db (buf ++ ext) = some (p, rest ++ ext) := by
  obtain ⟨s, hd, hle, hp, hr⟩ := get_packet_some_parts h
  have hd' := declaredFrameSize_append ext hd
  have hle' : s ≤ (buf ++ ext).length := by
    simp only [List.length_append]
    omega
  rw [get_packet_some_of_declared hd' hle',
    List.take_append_of_le_length hle, List.drop_append_of_le_length hle,
    hp, hr]

/-! Unfolding lemmas for the extraction loop. -/

theorem drainFrames_none {db : DatabaseType} {buf : List Nat}
    (h : get_packet db buf = none) : drainFrames db buf = some ([], buf) := by
  rw [drainFrames.eq_def]
  split
  · rfl
  · rename_i p rest heq
    rw [h] at heq
    exact Option.noConfusion heq

theorem drainFrames_stuck {db : DatabaseType} {buf : List Nat} {p : Packet}
    {rest : List Nat} (h : get_packet db buf = some (p, rest))
    (hp : p.bytes = []) : drainFrames db buf = none := by
  rw [drainFrames.eq_def]
  split
  · rename_i heq
    rw [h] at heq
    exact Option.noConfusion heq
  · rename_i p' rest' heq
    rw [h, Option.some.injEq, Prod.mk.injEq] at heq
    obtain ⟨h1, h2⟩ := heq
    subst h1
    subst h2
    rw [dif_pos hp]

theorem drainFrames_cons {db : DatabaseType} {buf : List Nat} {p : Packet}
    {rest : List Nat} (h : get_packet db buf = some (p, rest))
    (hp : p.bytes ≠ []) :
    drainFrames db buf =
      match drainFrames db rest with
      | none => none
      | some (ps, fin) => some (p :: ps, fin) := by
  rw [drainFrames.eq_def]
  split
  · rename_i heq
    rw [h] at heq
    exact Option.noConfusion heq
  · rename_i p' rest' heq
    rw [h, Option.some.injEq, Prod.mk.injEq] at heq
    obtain ⟨h1, h2⟩ := heq
    subst h1
    subst h2
    rw [dif_neg hp]

theorem drainFrames_quiescent_aux {db : DatabaseType} :
    ∀ n buf ps fin, buf.length ≤ n → drainFrames db buf = some (ps, fin) →
      get_packet db fin = none := by
  intro n
  induction n with
  | zero =>
    intro buf ps fin hlen h
    have hb : buf = [] := List.length_eq_zero.mp (by omega)
    subst hb
    rw [drainFrames_none (get_packet_nil db), Option.some.injEq,
      Prod.mk.injEq] at h
    rw [← h.2]
    exact get_packet_nil db
  | succ n ih =>
    intro buf ps fin hlen h
    cases hg : get_packet db buf with
    | none =>
      rw [drainFrames_none hg, Option.some.injEq, Prod.mk.injEq] at h
      rw [← h.2]
      exact hg
    | some pr =>
      obtain ⟨p, rest⟩ := pr
      by_cases hp : p.bytes = []
      · rw [drainFrames_stuck hg hp] at h
        exact Option.noConfusion h
      · rw [drainFrames_cons hg hp] at h
        cases hr : drainFrames db rest with
        | none =>
          rw [hr] at h
          exact Option.noConfusion h
        | some pr2 =>
          obtain ⟨ps2, fin2⟩ := pr2
          rw [hr, Option.some.injEq, Prod.mk.injEq] at h
          have hlt := get_packet_rest_lt hg hp
          have := ih rest ps2 fin2 (by omega) hr
          rw [← h.2]
          exact this

theorem drainFrames_quiescent {db : DatabaseType} {buf ps fin}
    (h : drainFrames db buf = some (ps, fin)) : get_packet db fin = none :=
  drainFrames_quiescent_aux buf.length buf ps fin le_rfl h

theorem drainFrames_bytes_aux {db : DatabaseType} :
    ∀ n buf ps fin, buf.length ≤ n → drainFrames db buf = some (ps, fin) →
      (ps.map Packet.bytes).flatten ++ fin = buf := by
  intro n
  induction n with
  | zero =>
    intro buf ps fin hlen h
    have hb : buf = [] := List.length_eq_zero.mp (by omega)
    subst hb
    rw [drainFrames_none (get_packet_nil db), Option.some.injEq,
      Prod.mk.injEq] at h
    rw [← h.1, ← h.2]
    rfl
  | succ n ih =>
    intro buf ps fin hlen h
    cases hg : get_packet db buf with
    | none =>
      rw [drainFrames_none hg, Option.some.injEq, Prod.mk.injEq] at h
      rw [← h.1, ← h.2]
      rfl
    | some pr =>
      obtain ⟨p, rest⟩ := pr
      by_cases hp : p.bytes = []
      · rw [drainFrames_stuck hg hp] at h
        exact Option.noConfusion h
      · rw [drainFrames_cons hg hp] at h
        cases hr : drainFrames db rest with
        | none =>
          rw [hr] at h
          exact Option.noConfusion h
        | some pr2 =>
          obtain ⟨ps2, fin2⟩ := pr2
          rw [hr, Option.some.injEq, Prod.mk.injEq] at h
          have hlt := get_packet_rest_lt hg hp
          have hih := ih rest ps2 fin2 (by omega) hr
          rw [← h.1, ← h.2]
          simp only [List.map_cons, List.flatten_cons, List.append_assoc]
          rw [hih]
          exact get_packet_bytes_append hg

theorem drainFrames_bytes {db : DatabaseType} {buf ps fin}
    (h : drainFrames db buf = some (ps, fin)) :
    (ps.map Packet.bytes).flatten ++ fin = buf :=
  drainFrames_bytes_aux buf.length buf ps fin le_rfl h

theorem drainFrames_append_aux {db : DatabaseType} :
    ∀ n buf, buf.length ≤ n → ∀ ext,
      drainFrames db (buf ++ ext) =
        match drainFrames db buf with
        | none => none
        | some (ps, rest) =>
          match drainFrames db (rest ++ ext) with
          | none => none
          | some (qs, fin) => some (ps ++ qs, fin) := by
  intro n
  induction n with
  | zero =>
    intro buf hlen ext
    have hb : buf = [] := List.length_eq_zero.mp (by omega)
    subst hb
    rw [drainFrames_none (get_packet_nil db)]
    dsimp only [List.nil_append]
    cases hd : drainFrames db ext with
    | none => rfl
    | some pr =>
      obtain ⟨qs, fin⟩ := pr
      simp
  | succ n ih =>
    intro buf hlen ext
    cases hg : get_packet db buf with
    | none =>
      rw [drainFrames_none hg]
      dsimp only
      cases hd : drainFrames db (buf ++ ext) with
      | none => rfl
      | some pr =>
        obtain ⟨qs, fin⟩ := pr
        simp
    | some pr =>
      obtain ⟨p, rest⟩ := pr
      by_cases hp : p.bytes = []
      · rw [drainFrames_stuck hg hp,
          drainFrames_stuck (get_packet_append ext hg) hp]
      · have hga := get_packet_append ext hg
        have hlt := get_packet_rest_lt hg hp
        rw [drainFrames_cons hga hp, drainFrames_cons hg hp,
          ih rest (by omega) ext]
        cases hr : drainFrames db rest with
        | none => rfl
        | some pr1 =>
          obtain ⟨ps1, r1⟩ := pr1
          dsimp only
          cases hr2 : drainFrames db (r1 ++ ext) with
          | none => rfl
          | some pr2 =>
            obtain ⟨qs, fin⟩ := pr2
            simp

theorem drainFrames_append {db : DatabaseType} (buf ext : List Nat) :
    drainFrames db (buf ++ ext) =
      match drainFrames db buf with
      | none => none
      | some (ps, rest) =>
        match drainFrames db (rest ++ ext) with
        | none => none
        | some (qs, fin) => some (ps ++ qs, fin) :=
  drainFrames_append_aux buf.length buf le_rfl ext

theorem feedChunks_eq_drain {db : DatabaseType} :
    ∀ (cs : List (List Nat)) (buf : List Nat), get_packet db buf = none →
      feedChunks db buf cs = drainFrames db (buf ++ cs.flatten) := by
  intro cs
  induction cs with
  | nil =>
    intro buf hq
    simp only [feedChunks, List.flatten_nil, List.append_nil]
    rw [drainFrames_none hq]
  | cons c cs ih =>
    intro buf hq
    simp only [feedChunks, List.flatten_cons]
    rw [← List.append_assoc, drainFrames_append (buf ++ c) cs.flatten]
    cases hd : drainFrames db (buf ++ c) with
    | none => rfl
    | some pr =>
      obtain ⟨ps, rest⟩ := pr
      dsimp only
      have hqr : get_packet db rest = none := drainFrames_quiescent hd
      rw [ih rest hqr]

/-- Claim C1: chunk-invariance of framing. For every byte sequence and every
split of it into chunks, repeatedly appending chunks to the accumulation
buffer and extracting frames with `get_packet` until it signals "none yet"
yields the same ordered frames, the same final leftover, and the same
divergence behaviour as appending the whole sequence at once and extracting,
for both `DatabaseType.MariaDB` and `DatabaseType.PostgresSQL`. -/
theorem c1_chunk_invariance (db : DatabaseType) (chunks : List (List Nat)) :
    feedChunks db [] chunks = drainFrames db chunks.flatten := by
  have h := feedChunks_eq_drain chunks [] (get_packet_nil db)
  simpa using h

/-! Bitwise reads versus the spec's arithmetic values. -/

theorem lor24_eq {b0 b1 b2 : Nat} (h0 : b0 < 256) (h1 : b1 < 256) :
    (b2 <<< 16) ||| (b1 <<< 8) ||| b0 = b0 + 256 * b1 + 65536 * b2 := by
  have p8 : (2 : Nat) ^ 8 = 256 := by norm_num
  have p16 : (2 : Nat) ^ 16 = 65536 := by norm_num
  have hA : b1 <<< 8 = 2 ^ 8 * b1 := by rw [Nat.shiftLeft_eq, Nat.mul_comm]
  have hB : b2 <<< 16 = 2 ^ 16 * b2 := by rw [Nat.shiftLeft_eq, Nat.mul_comm]
  have h1a : 2 ^ 8 * b1 < 2 ^ 16 := by rw [p8, p16]; omega
  have step1 : (2 ^ 16 * b2) ||| (2 ^ 8 * b1) = 2 ^ 16 * b2 + 2 ^ 8 * b1 :=
    (Nat.mul_add_lt_is_or h1a b2).symm
  have hsplit : 2 ^ 16 * b2 + 2 ^ 8 * b1 = 2 ^ 8 * (2 ^ 8 * b2 + b1) := by
    rw [p8, p16]; ring
  have h0a : b0 < 2 ^ 8 := by rw [p8]; omega
  have step2 : (2 ^ 8 * (2 ^ 8 * b2 + b1)) ||| b0 =
      2 ^ 8 * (2 ^ 8 * b2 + b1) + b0 := (Nat.mul_add_lt_is_or h0a _).symm
  rw [hA, hB, step1, hsplit, step2, p8]
  ring

theorem lor32_eq {b0 b1 b2 b3 : Nat} (h1 : b1 < 256) (h2 : b2 < 256)
    (h3 : b3 < 256) :
    (b0 <<< 24) ||| (b1 <<< 16) ||| (b2 <<< 8) ||| b3 =
      16777216 * b0 + 65536 * b1 + 256 * b2 + b3 := by
  have p8 : (2 : Nat) ^ 8 = 256 := by norm_num
  have p16 : (2 : Nat) ^ 16 = 65536 := by norm_num
  have p24 : (2 : Nat) ^ 24 = 16777216 := by norm_num
  have hA : b1 <<< 16 = 2 ^ 16 * b1 := by rw [Nat.shiftLeft_eq, Nat.mul_comm]
  have hB : b0 <<< 24 = 2 ^ 24 * b0 := by rw [Nat.shiftLeft_eq, Nat.mul_comm]
  have hC : b2 <<< 8 = 2 ^ 8 * b2 := by rw [Nat.shiftLeft_eq, Nat.mul_comm]
  have h1a : 2 ^ 16 * b1 < 2 ^ 24 := by rw [p16, p24]; omega
  have step1 : (2 ^ 24 * b0) ||| (2 ^ 16 * b1) = 2 ^ 24 * b0 + 2 ^ 16 * b1 :=
    (Nat.mul_add_lt_is_or h1a b0).symm
  have hsplit1 : 2 ^ 24 * b0 + 2 ^ 16 * b1 = 2 ^ 16 * (2 ^ 8 * b0 + b1) := by
    rw [p8, p16, p24]; ring
  have h2a : 2 ^ 8 * b2 < 2 ^ 16 := by rw [p8, p16]; omega
  have step2 : (2 ^ 16 * (2 ^ 8 * b0 + b1)) ||| (2 ^ 8 * b2) =
      2 ^ 16 * (2 ^ 8 * b0 + b1) + 2 ^ 8 * b2 :=
    (Nat.mul_add_lt_is_or h2a _).symm
  have hsplit2 : 2 ^ 16 * (2 ^ 8 * b0 + b1) + 2 ^ 8 * b2 =
      2 ^ 8 * (2 ^ 8 * (2 ^ 8 * b0 + b1) + b2) := by
    rw [p8, p16]; ring
  have h3a : b3 < 2 ^ 8 := by rw [p8]; omega
  have step3 : (2 ^ 8 * (2 ^ 8 * (2 ^ 8 * b0 + b1) + b2)) ||| b3 =
      2 ^ 8 * (2 ^ 8 * (2 ^ 8 * b0 + b1) + b2) + b3 :=
    (Nat.mul_add_lt_is_or h3a _).symm
  rw [hA, hB, hC, step1, hsplit1, step2, hsplit2, step3, p8]
  ring

theorem getD_lt_256 {buf : List Nat} (hbytes : ∀ b ∈ buf, b < 256) {i : Nat}
    (hi : i < buf.length) : buf.getD i 0 < 256 := by
  rw [List.getD_eq_getElem _ _ hi]
  exact hbytes _ (List.getElem_mem hi)

theorem declared_mariadb (buf : List Nat) (hge4 : 4 ≤ buf.length)
    (hb0 : buf.getD 0 0 < 256) (hb1 : buf.getD 1 0 < 256) :
    declaredFrameSize DatabaseType.MariaDB buf =
      some (4 + mariadbLenSpec buf) := by
  simp only [declaredFrameSize, mariadbLenSpec]
  rw [if_neg (by omega), lor24_eq hb0 hb1]

theorem declared_postgres (buf : List Nat) (hne : buf ≠ [])
    (hge4 : postgresHeadLen buf + 4 ≤ buf.length)
    (hb1 : buf.getD (postgresHeadLen buf + 1) 0 < 256)
    (hb2 : buf.getD (postgresHeadLen buf + 2) 0 < 256)
    (hb3 : buf.getD (postgresHeadLen buf + 3) 0 < 256) :
    declaredFrameSize DatabaseType.PostgresSQL buf =
      some (postgresHeadLen buf + postgresLenSpec buf (postgresHeadLen buf)) := by
  have hne' : ¬ buf.isEmpty = true := by simpa using hne
  simp only [declaredFrameSize, postgresLenSpec]
  rw [if_neg hne']
  rw [show (if POSTGRES_IDS.contains (Char.ofNat (buf.getD 0 0)) then 1 else 0)
    = postgresHeadLen buf from rfl]
  rw [if_neg (by omega), lor32_eq hb1 hb2 hb3]

/-- Claim C2: MariaDB framing. With fewer than 4 buffered bytes `get_packet`
yields nothing; otherwise, with `L` the 24-bit little-endian value of bytes
0..3 (byte 0 least significant) and `S = 4 + L`, it yields nothing when fewer
than `S` bytes are buffered and otherwise removes exactly the first `S` bytes
as the frame, keeping the trailing bytes; the spec's concrete example
extracts one 6-byte frame with empty leftover. -/
theorem c2_mariadb_framing (buf : List Nat) (hbytes : ∀ b ∈ buf, b < 256) :
    (buf.length < 4 → get_packet DatabaseType.MariaDB buf = none) ∧
    (4 ≤ buf.length →
      (buf.length < 4 + mariadbLenSpec buf →
        get_packet DatabaseType.MariaDB buf = none) ∧
      (4 + mariadbLenSpec buf ≤ buf.length →
        get_packet DatabaseType.MariaDB buf =
          some (⟨DatabaseType.MariaDB, buf.take (4 + mariadbLenSpec buf)⟩,
            buf.drop (4 + mariadbLenSpec buf)))) ∧
    get_packet DatabaseType.MariaDB [2, 0, 0, 0, 171, 205] =
      some (⟨DatabaseType.MariaDB, [2, 0, 0, 0, 171, 205]⟩, []) := by
  refine ⟨fun h4 => ?_, fun h4 => ?_, by decide⟩
  · simp only [get_packet]
    rw [if_pos h4]
  · have hb0 : buf.getD 0 0 < 256 := getD_lt_256 hbytes (by omega)
    have hb1 : buf.getD 1 0 < 256 := getD_lt_256 hbytes (by omega)
    have hd := declared_mariadb buf h4 hb0 hb1
    refine ⟨fun hlt => ?_, fun hge => ?_⟩
    · rw [get_packet_eq_declared, hd]
      dsimp only
      rw [if_pos hlt]
    · exact get_packet_some_of_declared hd (by omega)

theorem c2_mariadb_framing_witness :
    (∀ b ∈ [2, 0, 0, 0, 171, 205], b < 256) ∧
    get_packet DatabaseType.MariaDB [2, 0, 0, 0, 171, 205] =
      some (⟨DatabaseType.MariaDB, [2, 0, 0, 0, 171, 205]⟩, []) :=
  ⟨by decide, (c2_mariadb_framing [2, 0, 0, 0, 171, 205] (by decide)).2.2⟩

/-- Claim C3 counterexample: the claim asserts that the 9-byte input
`['Q',0,0,0,9,'S','E','L',0]` yields one 10-byte frame, but its length field
LEN = 9 demands a total frame of 1 + 9 = 10 bytes, so `get_packet` on exactly
these 9 bytes yields nothing (and, in this embedding, `none` leaves the
buffer untouched by construction). -/
theorem c3_postgres_example_counterexample :
    get_packet DatabaseType.PostgresSQL [81, 0, 0, 0, 9, 83, 69, 76, 0] =
      none := by decide

/-- Claim C3 (amended): PostgreSQL framing. On an empty buffer `get_packet`
yields nothing; otherwise, with `P = 1` iff the first byte is a recognized
discriminator, it yields nothing when fewer than `P + 4` bytes are buffered;
with `LEN` the 32-bit big-endian value at offset `P` and `S = P + LEN` (LEN
counting the length bytes but not the discriminator), it yields nothing when
fewer than `S` bytes are buffered and otherwise removes exactly the first `S`
bytes as the frame. The letter Q is recognized; the claim's 9-byte input
`['Q',0,0,0,9,'S','E','L',0]` is itself the truncated case and yields nothing
with the buffer unchanged, while extending it with a tenth byte yields one
complete 10-byte frame and empty leftover. -/
theorem c3_postgres_framing (buf : List Nat) (hbytes : ∀ b ∈ buf, b < 256) :
    (buf = [] → get_packet DatabaseType.PostgresSQL buf = none) ∧
    (buf ≠ [] →
      (buf.length < postgresHeadLen buf + 4 →
        get_packet DatabaseType.PostgresSQL buf = none) ∧
      (postgresHeadLen buf + 4 ≤ buf.length →
        (buf.length <
            postgresHeadLen buf + postgresLenSpec buf (postgresHeadLen buf) →
          get_packet DatabaseType.PostgresSQL buf = none) ∧
        (postgresHeadLen buf + postgresLenSpec buf (postgresHeadLen buf) ≤
            buf.length →
          get_packet DatabaseType.PostgresSQL buf =
            some (⟨DatabaseType.PostgresSQL,
              buf.take
                (postgresHeadLen buf +
                  postgresLenSpec buf (postgresHeadLen buf))⟩,
              buf.drop
                (postgresHeadLen buf +
                  postgresLenSpec buf (postgresHeadLen buf)))))) ∧
    POSTGRES_IDS.contains 'Q' = true ∧
    get_packet DatabaseType.PostgresSQL [81, 0, 0, 0, 9, 83, 69, 76, 0] =
      none ∧
    get_packet DatabaseType.PostgresSQL [81, 0, 0, 0, 9, 83, 69, 76, 0, 0] =
      some (⟨DatabaseType.PostgresSQL, [81, 0, 0, 0, 9, 83, 69, 76, 0, 0]⟩,
        []) := by
  refine ⟨fun hnil => ?_, fun hne => ?_, by decide, by decide, by decide⟩
  · subst hnil
    exact get_packet_nil _
  · have hne' : ¬ buf.isEmpty = true := by simpa using hne
    refine ⟨fun hlt4 => ?_, fun hge4 => ?_⟩
    · simp only [get_packet]
      rw [if_neg hne']
      rw [show (if POSTGRES_IDS.contains (Char.ofNat (buf.getD 0 0)) then 1
        else 0) = postgresHeadLen buf from rfl]
      rw [if_pos hlt4]
    · have hb1 : buf.getD (postgresHeadLen buf + 1) 0 < 256 :=
        getD_lt_256 hbytes (by omega)
      have hb2 : buf.getD (postgresHeadLen buf + 2) 0 < 256 :=
        getD_lt_256 hbytes (by omega)
      have hb3 : buf.getD (postgresHeadLen buf + 3) 0 < 256 :=
        getD_lt_256 hbytes (by omega)
      have hd := declared_postgres buf hne hge4 hb1 hb2 hb3
      refine ⟨fun hlt => ?_, fun hge => ?_⟩
      · rw [get_packet_eq_declared, hd]
        dsimp only
        rw [if_pos hlt]
      · exact get_packet_some_of_declared hd (by omega)

theorem c3_postgres_framing_witness :
    (∀ b ∈ [81, 0, 0, 0, 9, 83, 69, 76, 0, 0], b < 256) ∧
    get_packet DatabaseType.PostgresSQL [81, 0, 0, 0, 9, 83, 69, 76, 0, 0] =
      some (⟨DatabaseType.PostgresSQL, [81, 0, 0, 0, 9, 83, 69, 76, 0, 0]⟩,
        []) :=
  ⟨by decide,
    (c3_postgres_framing [81, 0, 0, 0, 9, 83, 69, 76, 0, 0] (by decide)).2.2.2.2⟩

/-! Unfolding lemmas for the packet-processing loop. -/

theorem process_packets_none {cfg : PipeConfig} {buf wb : List Nat}
    (h : get_packet cfg.db_type buf = none) :
    process_packets cfg buf wb = some ⟨buf, wb, [], []⟩ := by
  rw [process_packets.eq_def]
  split
  · rfl
  · rename_i p rest heq
    rw [h] at heq
    exact Option.noConfusion heq

theorem process_packets_stuck {cfg : PipeConfig} {buf wb : List Nat}
    {p : Packet} {rest : List Nat}
    (h : get_packet cfg.db_type buf = some (p, rest)) (hp : p.bytes = []) :
    process_packets cfg buf wb = none := by
  rw [process_packets.eq_def]
  split
  · rename_i heq
    rw [h] at heq
    exact Option.noConfusion heq
  · rename_i p' rest' heq
    rw [h, Option.some.injEq, Prod.mk.injEq] at heq
    obtain ⟨h1, h2⟩ := heq
    subst h1
    subst h2
    rw [dif_pos hp]

theorem process_packets_ssl {cfg : PipeConfig} {buf wb : List Nat}
    {p : Packet} {rest : List Nat}
    (h : get_packet cfg.db_type buf = some (p, rest)) (hp : p.bytes ≠ [])
    (hssl : cfg.isSSLRequest p = true) :
    process_packets cfg buf wb =
      match process_packets cfg rest wb with
      | none => none
      | some o =>
        some ⟨o.packet_buf, o.write_buf,
          Packet.mk cfg.db_type [78] :: o.sent, o.handled⟩ := by
  rw [process_packets.eq_def]
  split
  · rename_i heq
    rw [h] at heq
    exact Option.noConfusion heq
  · rename_i p' rest' heq
    rw [h, Option.some.injEq, Prod.mk.injEq] at heq
    obtain ⟨h1, h2⟩ := heq
    subst h1
    subst h2
    rw [dif_neg hp, if_pos hssl]

theorem process_packets_handler {cfg : PipeConfig} {buf wb : List Nat}
    {p : Packet} {rest : List Nat}
    (h : get_packet cfg.db_type buf = some (p, rest)) (hp : p.bytes ≠ [])
    (hssl : cfg.isSSLRequest p = false) :
    process_packets cfg buf wb =
      match process_packets cfg rest (wb ++ (transformPacket cfg p).bytes) with
      | none => none
      | some o => some ⟨o.packet_buf, o.write_buf, o.sent, p :: o.handled⟩ := by
  rw [process_packets.eq_def]
  split
  · rename_i heq
    rw [h] at heq
    exact Option.noConfusion heq
  · rename_i p' rest' heq
    rw [h, Option.some.injEq, Prod.mk.injEq] at heq
    obtain ⟨h1, h2⟩ := heq
    subst h1
    subst h2
    rw [dif_neg hp, if_neg (by simp [hssl])]

/-- Claim C10: the implicit PostgreSQL zero-length edge case. On the buffer
`[0,0,0,0]` (first byte not a recognized discriminator, big-endian length
field 0) `get_packet` succeeds with an empty frame and leaves the buffer
unchanged, so a successful extraction does not always consume a byte; the
repeated-extraction loop of `process_read_buf` therefore never reaches "none
yet" on this input, modelled by the `none` (divergence) results of the loop
embeddings. -/
theorem c10_postgres_zero_length :
    get_packet DatabaseType.PostgresSQL [0, 0, 0, 0] =
      some (⟨DatabaseType.PostgresSQL, []⟩, [0, 0, 0, 0]) ∧
    drainFrames DatabaseType.PostgresSQL [0, 0, 0, 0] = none ∧
    process_packets
      ⟨"pipe", DatabaseType.PostgresSQL, Direction.Forward,
        ⟨fun p => p, fun p => p⟩, fun _ => false⟩
      [0, 0, 0, 0] [] = none := by
  refine ⟨by decide, ?_, ?_⟩
  · exact drainFrames_stuck
      (show get_packet DatabaseType.PostgresSQL [0, 0, 0, 0] =
        some (⟨DatabaseType.PostgresSQL, []⟩, [0, 0, 0, 0]) by decide) rfl
  · exact process_packets_stuck
      (show get_packet
          (⟨"pipe", DatabaseType.PostgresSQL, Direction.Forward,
            ⟨fun p => p, fun p => p⟩, fun _ => false⟩ : PipeConfig).db_type
          [0, 0, 0, 0] =
        some (⟨DatabaseType.PostgresSQL, []⟩, [0, 0, 0, 0]) by decide) rfl

/-- Claim C4: buffer preservation and no loss/duplication. A `get_packet`
call that yields a frame leaves the buffer equal to the old buffer with
exactly that frame removed from the front (so frame ++ leftover = old
buffer); in this embedding a `none` result returns the buffer unmodified by
construction. Consequently, over any sequence of appends and
extract-to-quiescence rounds, the concatenation of all extracted frames
followed by the final leftover equals the concatenation of all bytes ever
appended. -/
theorem c4_no_loss (db : DatabaseType) :
    (∀ buf p rest, get_packet db buf = some (p, rest) →
      p.bytes ++ rest = buf) ∧
    (∀ chunks ps fin, feedChunks db [] chunks = some (ps, fin) →
      (ps.map Packet.bytes).flatten ++ fin = chunks.flatten) := by
  refine ⟨fun buf p rest h => get_packet_bytes_append h,
    fun chunks ps fin h => ?_⟩
  rw [feedChunks_eq_drain chunks [] (get_packet_nil db)] at h
  have hb := drainFrames_bytes h
  simpa using hb

theorem c4_no_loss_witness :
    get_packet DatabaseType.MariaDB [2, 0, 0, 0, 171, 205] =
      some (⟨DatabaseType.MariaDB, [2, 0, 0, 0, 171, 205]⟩, []) ∧
    (⟨DatabaseType.MariaDB, [2, 0, 0, 0, 171, 205]⟩ : Packet).bytes ++ [] =
      [2, 0, 0, 0, 171, 205] :=
  ⟨by decide, (c4_no_loss DatabaseType.MariaDB).1 _ _ _ (by decide)⟩

theorem process_packets_eq_drain_aux (cfg : PipeConfig) :
    ∀ n buf wb ps rest, buf.length ≤ n →
      drainFrames cfg.db_type buf = some (ps, rest) →
      process_packets cfg buf wb =
        some ⟨rest,
          wb ++ (((ps.filter fun p => !(cfg.isSSLRequest p)).map
            (transformPacket cfg)).map Packet.bytes).flatten,
          (ps.filter fun p => cfg.isSSLRequest p).map
            (fun _ => Packet.mk cfg.db_type [78]),
          ps.filter fun p => !(cfg.isSSLRequest p)⟩ := by
  intro n
  induction n with
  | zero =>
    intro buf wb ps rest hlen h
    have hb : buf = [] := List.length_eq_zero.mp (by omega)
    subst hb
    rw [drainFrames_none (get_packet_nil _), Option.some.injEq,
      Prod.mk.injEq] at h
    obtain ⟨h1, h2⟩ := h
    subst h1
    subst h2
    rw [process_packets_none (get_packet_nil _)]
    simp
  | succ n ih =>
    intro buf wb ps rest hlen h
    cases hg : get_packet cfg.db_type buf with
    | none =>
      rw [drainFrames_none hg, Option.some.injEq, Prod.mk.injEq] at h
      obtain ⟨h1, h2⟩ := h
      subst h1
      subst h2
      rw [process_packets_none hg]
      simp
    | some pr =>
      obtain ⟨p, r0⟩ := pr
      by_cases hp : p.bytes = []
      · rw [drainFrames_stuck hg hp] at h
        exact Option.noConfusion h
      · rw [drainFrames_cons hg hp] at h
        cases hr : drainFrames cfg.db_type r0 with
        | none =>
          rw [hr] at h
          exact Option.noConfusion h
        | some pr1 =>
          obtain ⟨ps1, fin⟩ := pr1
          rw [hr] at h
          dsimp only at h
          rw [Option.some.injEq, Prod.mk.injEq] at h
          obtain ⟨h1, h2⟩ := h
          subst h2
          have hlt := get_packet_rest_lt hg hp
          by_cases hssl : cfg.isSSLRequest p = true
          · rw [process_packets_ssl hg hp hssl,
              ih r0 wb ps1 fin (by omega) hr]
            dsimp only
            subst h1
            simp [List.filter_cons, hssl]
          · have hssl' : cfg.isSSLRequest p = false := by
              cases hb : cfg.isSSLRequest p
              · rfl
              · exact absurd hb hssl
            rw [process_packets_handler hg hp hssl',
              ih r0 (wb ++ (transformPacket cfg p).bytes) ps1 fin
                (by omega) hr]
            dsimp only
            subst h1
            simp [List.filter_cons, hssl']

/-- Claim C5: SSL short-circuit. When the extraction loop of
`process_read_buf` terminates with frames `ps` and leftover `rest`, the loop's
outcome sends exactly one `Packet` with bytes `[78]` (the single ASCII
character N), tagged with the session's `db_type`, per frame classified as an
SSL-negotiation probe, in order; probe frames are absent from the handled
list (no handler operation is invoked for them) and contribute nothing to the
output buffer, which receives only the transformed bytes of the non-probe
frames. -/
theorem c5_ssl_short_circuit (cfg : PipeConfig) (buf wb : List Nat)
    (ps : List Packet) (rest : List Nat)
    (h : drainFrames cfg.db_type buf = some (ps, rest)) :
    process_packets cfg buf wb =
      some ⟨rest,
        wb ++ (((ps.filter fun p => !(cfg.isSSLRequest p)).map
          (transformPacket cfg)).map Packet.bytes).flatten,
        (ps.filter fun p => cfg.isSSLRequest p).map
          (fun _ => Packet.mk cfg.db_type [78]),
        ps.filter fun p => !(cfg.isSSLRequest p)⟩ :=
  process_packets_eq_drain_aux cfg buf.length buf wb ps rest le_rfl h

theorem c5_ssl_short_circuit_witness :
    drainFrames DatabaseType.PostgresSQL [0, 0, 0, 8, 4, 210, 22, 47] =
      some ([⟨DatabaseType.PostgresSQL, [0, 0, 0, 8, 4, 210, 22, 47]⟩], []) ∧
    process_packets
        ⟨"halfpipe", DatabaseType.PostgresSQL, Direction.Forward,
          ⟨fun p => p, fun p => p⟩,
          fun p => decide (p.bytes = [0, 0, 0, 8, 4, 210, 22, 47])⟩
        [0, 0, 0, 8, 4, 210, 22, 47] [] =
      some ⟨[], [], [Packet.mk DatabaseType.PostgresSQL [78]], []⟩ := by
  have hdrain : drainFrames DatabaseType.PostgresSQL
      [0, 0, 0, 8, 4, 210, 22, 47] =
      some ([⟨DatabaseType.PostgresSQL, [0, 0, 0, 8, 4, 210, 22, 47]⟩], []) := by
    rw [drainFrames_cons
      (show get_packet DatabaseType.PostgresSQL [0, 0, 0, 8, 4, 210, 22, 47] =
        some (⟨DatabaseType.PostgresSQL, [0, 0, 0, 8, 4, 210, 22, 47]⟩, [])
        by decide)
      (by decide), drainFrames_none (get_packet_nil _)]
  exact ⟨hdrain,
    c5_ssl_short_circuit
      ⟨"halfpipe", DatabaseType.PostgresSQL, Direction.Forward,
        ⟨fun p => p, fun p => p⟩,
        fun p => decide (p.bytes = [0, 0, 0, 8, 4, 210, 22, 47])⟩
      [0, 0, 0, 8, 4, 210, 22, 47] []
      [⟨DatabaseType.PostgresSQL, [0, 0, 0, 8, 4, 210, 22, 47]⟩] [] hdrain⟩

/-! Flush loop lemmas. -/

theorem flush_write_buf_drained :
    ∀ (accepts wb : List Nat) pieces rest,
      flush_write_buf accepts wb = some (pieces, rest) →
      rest = [] ∧ pieces.flatten = wb := by
  intro accepts
  induction accepts with
  | nil =>
    intro wb pieces rest h
    rw [flush_write_buf] at h
    by_cases hw : wb.isEmpty = true
    · rw [if_pos hw] at h
      rw [Option.some.injEq, Prod.mk.injEq] at h
      obtain ⟨h1, h2⟩ := h
      have hwb : wb = [] := by simpa using hw
      subst hwb
      exact ⟨h2.symm, by rw [← h1]; rfl⟩
    · rw [if_neg hw] at h
      exact Option.noConfusion h
  | cons n ns ih =>
    intro wb pieces rest h
    rw [flush_write_buf] at h
    by_cases hw : wb.isEmpty = true
    · rw [if_pos hw] at h
      rw [Option.some.injEq, Prod.mk.injEq] at h
      obtain ⟨h1, h2⟩ := h
      have hwb : wb = [] := by simpa using hw
      subst hwb
      exact ⟨h2.symm, by rw [← h1]; rfl⟩
    · rw [if_neg hw] at h
      by_cases hle : n ≤ wb.length
      · rw [if_pos hle] at h
        cases hf : flush_write_buf ns (wb.drop n) with
        | none =>
          rw [hf] at h
          exact Option.noConfusion h
        | some pr =>
          obtain ⟨ps1, r1⟩ := pr
          rw [hf] at h
          dsimp only at h
          rw [Option.some.injEq, Prod.mk.injEq] at h
          obtain ⟨h1, h2⟩ := h
          obtain ⟨hr1, hflat⟩ := ih (wb.drop n) ps1 r1 hf
          refine ⟨by rw [← h2]; exact hr1, ?_⟩
          rw [← h1]
          simp only [List.flatten_cons, hflat]
          exact List.take_append_drop n wb
      · rw [if_neg hle] at h
        exact Option.noConfusion h

theorem flush_write_buf_step {n : Nat} {ns wb : List Nat} (hne : wb ≠ [])
    (hle : n ≤ wb.length) :
    flush_write_buf (n :: ns) wb =
      match flush_write_buf ns (wb.drop n) with
      | none => none
      | some (pieces, rest) => some (wb.take n :: pieces, rest) := by
  rw [flush_write_buf, if_neg (by simpa using hne)]
  rw [if_pos hle]

/-! Event-loop lemmas. -/

theorem run_model_source_ok_inv {cfg : PipeConfig} {rr : Except String Nat}
    {rb acc : List Nat} {evs : List RunEvent} {pb wb : List Nat} {t : RunTrace}
    (h : run_model cfg (RunEvent.source rr rb acc :: evs) pb wb =
      some (Except.ok t)) :
    ∃ o pieces t', process_read_buf cfg rr rb pb wb = some (Except.ok o) ∧
      flush_write_buf acc o.write_buf = some (pieces, []) ∧
      run_model cfg evs o.packet_buf [] = some (Except.ok t') ∧
      t = ⟨o.sent ++ t'.sent, o.handled ++ t'.handled,
        pieces ++ t'.written⟩ := by
  simp only [run_model] at h
  cases hpr : process_read_buf cfg rr rb pb wb with
  | none =>
    rw [hpr] at h
    exact Option.noConfusion h
  | some res =>
    cases res with
    | error e =>
      rw [hpr] at h
      dsimp only at h
      rw [Option.some.injEq] at h
      exact Except.noConfusion h
    | ok o =>
      rw [hpr] at h
      dsimp only at h
      cases hf : flush_write_buf acc o.write_buf with
      | none =>
        rw [hf] at h
        exact Option.noConfusion h
      | some pr =>
        obtain ⟨pieces, rest⟩ := pr
        rw [hf] at h
        dsimp only at h
        obtain ⟨hrest, _⟩ := flush_write_buf_drained acc o.write_buf pieces rest hf
        subst hrest
        cases hrun : run_model cfg evs o.packet_buf [] with
        | none =>
          rw [hrun] at h
          exact Option.noConfusion h
        | some res2 =>
          cases res2 with
          | error e =>
            rw [hrun] at h
            dsimp only at h
            rw [Option.some.injEq] at h
            exact Except.noConfusion h
          | ok t' =>
            rw [hrun] at h
            dsimp only at h
            rw [Option.some.injEq, Except.ok.injEq] at h
            exact ⟨o, pieces, t', rfl, hf, hrun, h.symm⟩

theorem run_model_sibling_some_inv {cfg : PipeConfig} {p : Packet}
    {acc : List Nat} {evs : List RunEvent} {pb wb : List Nat} {t : RunTrace}
    (h : run_model cfg (RunEvent.sibling (some p) acc :: evs) pb wb =
      some (Except.ok t)) :
    ∃ pieces t', flush_write_buf acc (wb ++ p.bytes) = some (pieces, []) ∧
      run_model cfg evs pb [] = some (Except.ok t') ∧
      t = ⟨t'.sent, t'.handled, pieces ++ t'.written⟩ ∧
      pieces.flatten = wb ++ p.bytes := by
  simp only [run_model, process_short_circuit] at h
  cases hf : flush_write_buf acc (wb ++ p.bytes) with
  | none =>
    rw [hf] at h
    exact Option.noConfusion h
  | some pr =>
    obtain ⟨pieces, rest⟩ := pr
    rw [hf] at h
    dsimp only at h
    obtain ⟨hrest, hflat⟩ :=
      flush_write_buf_drained acc (wb ++ p.bytes) pieces rest hf
    subst hrest
    cases hrun : run_model cfg evs pb [] with
    | none =>
      rw [hrun] at h
      exact Option.noConfusion h
    | some res2 =>
      cases res2 with
      | error e =>
        rw [hrun] at h
        dsimp only at h
        rw [Option.some.injEq] at h
        exact Except.noConfusion h
      | ok t' =>
        rw [hrun] at h
        dsimp only at h
        rw [Option.some.injEq, Except.ok.injEq] at h
        exact ⟨pieces, t', rfl, rfl, h.symm, hflat⟩

/-- Claim C6: sibling-channel handling. A Packet delivered on the
sibling-receive channel has its bytes appended directly to the output buffer
— the accumulation buffer is untouched (no framing) and the handled list is
untouched (no handler invocation), only the written output grows by exactly
those bytes; and when the channel delivers `None` (closed), the event loop
fails at once with the SiblingChannelClosed error, for every possible tail of
later events — no further source reads happen. -/
theorem c6_sibling_channel (cfg : PipeConfig) :
    (∀ p acc evs pb wb t,
      run_model cfg (RunEvent.sibling (some p) acc :: evs) pb wb =
        some (Except.ok t) →
      ∃ pieces t', flush_write_buf acc (wb ++ p.bytes) = some (pieces, []) ∧
        run_model cfg evs pb [] = some (Except.ok t') ∧
        t = ⟨t'.sent, t'.handled, pieces ++ t'.written⟩ ∧
        pieces.flatten = wb ++ p.bytes) ∧
    (∀ acc evs pb wb,
      run_model cfg (RunEvent.sibling none acc :: evs) pb wb =
        some (Except.error
          (create_error cfg.name cfg.direction
            "other_pipe_receiver prematurely closed"))) := by
  refine ⟨fun p acc evs pb wb t h => run_model_sibling_some_inv h,
    fun acc evs pb wb => rfl⟩

theorem c6_sibling_channel_witness :
    run_model
        ⟨"widget", DatabaseType.MariaDB, Direction.Forward,
          ⟨fun p => p, fun p => p⟩, fun _ => false⟩
        [RunEvent.sibling (some ⟨DatabaseType.MariaDB, [5, 6, 7]⟩) [3]]
        [9] [] =
      some (Except.ok ⟨[], [], [[5, 6, 7]]⟩) ∧
    (∃ pieces t',
      flush_write_buf [3]
          ([] ++ (⟨DatabaseType.MariaDB, [5, 6, 7]⟩ : Packet).bytes) =
        some (pieces, []) ∧
      run_model
          ⟨"widget", DatabaseType.MariaDB, Direction.Forward,
            ⟨fun p => p, fun p => p⟩, fun _ => false⟩
          [] [9] [] =
        some (Except.ok t') ∧
      (⟨[], [], [[5, 6, 7]]⟩ : RunTrace) =
        ⟨t'.sent, t'.handled, pieces ++ t'.written⟩ ∧
      pieces.flatten =
        [] ++ (⟨DatabaseType.MariaDB, [5, 6, 7]⟩ : Packet).bytes) :=
  ⟨rfl,
    (c6_sibling_channel
        ⟨"widget", DatabaseType.MariaDB, Direction.Forward,
          ⟨fun p => p, fun p => p⟩, fun _ => false⟩).1
      ⟨DatabaseType.MariaDB, [5, 6, 7]⟩ [3] [] [9] []
      ⟨[], [], [[5, 6, 7]]⟩ rfl⟩

/-- Claim C7: flush invariant. Whenever the flush loop finishes, the output
buffer is empty and the pieces written to the sink concatenate to exactly the
buffer it started with; a partial write (a reported count not exceeding the
buffer) is not an error — exactly the reported front is removed and the loop
continues; and after each successfully processed source event the loop runs
the remaining events with an empty output buffer: the buffer is fully
drained before the next event is processed. -/
theorem c7_flush_invariant :
    (∀ accepts wb pieces rest,
      flush_write_buf accepts wb = some (pieces, rest) →
      rest = [] ∧ pieces.flatten = wb) ∧
    (∀ (n : Nat) (ns wb : List Nat), wb ≠ [] → n ≤ wb.length →
      flush_write_buf (n :: ns) wb =
        match flush_write_buf ns (wb.drop n) with
        | none => none
        | some (pieces, rest) => some (wb.take n :: pieces, rest)) ∧
    (∀ cfg rr rb acc evs pb wb t,
      run_model cfg (RunEvent.source rr rb acc :: evs) pb wb =
        some (Except.ok t) →
      ∃ o pieces t', process_read_buf cfg rr rb pb wb = some (Except.ok o) ∧
        flush_write_buf acc o.write_buf = some (pieces, []) ∧
        run_model cfg evs o.packet_buf [] = some (Except.ok t') ∧
        t = ⟨o.sent ++ t'.sent, o.handled ++ t'.handled,
          pieces ++ t'.written⟩) :=
  ⟨flush_write_buf_drained,
    fun _ _ _ hne hle => flush_write_buf_step hne hle,
    fun _ _ _ _ _ _ _ _ h => run_model_source_ok_inv h⟩

theorem c7_flush_invariant_witness :
    (([] : List Nat) = [] ∧
      ([[1, 2], [3, 4, 5]] : List (List Nat)).flatten = [1, 2, 3, 4, 5]) ∧
    flush_write_buf [2] [1, 2, 3] =
      (match flush_write_buf [] ([1, 2, 3].drop 2) with
        | none => none
        | some (pieces, rest) => some ([1, 2, 3].take 2 :: pieces, rest)) :=
  ⟨c7_flush_invariant.1 [2, 3] [1, 2, 3, 4, 5] [[1, 2], [3, 4, 5]] []
      (by decide),
    c7_flush_invariant.2.1 2 [] [1, 2, 3] (by decide) (by decide)⟩

/-- Claim C8 counterexample: a source I/O error does not surface with the
identity/direction banner. With pipe name pipe0 and Forward direction, a read
that fails with message boom ends the loop with exactly the error value boom
— not the banner-wrapped message that `create_error` would produce — because
`process_read_buf` returns the incoming error unchanged (src/pipe.rs line
143). -/
theorem c8_source_io_error_counterexample :
    run_model
        ⟨"pipe0", DatabaseType.MariaDB, Direction.Forward,
          ⟨fun p => p, fun p => p⟩, fun _ => false⟩
        [RunEvent.source (Except.error "boom") [] []] [] [] =
      some (Except.error "boom") ∧
    "boom" ≠ create_error "pipe0" Direction.Forward "boom" := by
  refine ⟨rfl, ?_⟩
  decide

/-- Claim C8 (amended): failure surfacing. A zero-byte read (SourceClosed)
and a closed sibling channel (SiblingChannelClosed) each end the event loop
at once with an error whose message carries the identity/direction banner of
`create_error`; an underlying source I/O error (SourceIOError) also ends the
loop at once but surfaces as the original error value unchanged — the banner
accompanies it only in the log, not in the returned error. None of the three
is retried: the equations hold for every tail of later events, which are
never consumed. -/
theorem c8_failure_surfacing (cfg : PipeConfig) :
    (∀ rb acc evs pb wb,
      run_model cfg (RunEvent.source (Except.ok 0) rb acc :: evs) pb wb =
        some (Except.error
          (create_error cfg.name cfg.direction
            "Read 0 bytes, closing pipe."))) ∧
    (∀ acc evs pb wb,
      run_model cfg (RunEvent.sibling none acc :: evs) pb wb =
        some (Except.error
          (create_error cfg.name cfg.direction
            "other_pipe_receiver prematurely closed"))) ∧
    (∀ e rb acc evs pb wb,
      run_model cfg (RunEvent.source (Except.error e) rb acc :: evs) pb wb =
        some (Except.error e)) :=
  ⟨fun _ _ _ _ _ => rfl, fun _ _ _ _ => rfl, fun _ _ _ _ _ _ => rfl⟩

end MariadbProxy
